import Mathlib

/-!
Shallow embedding of the reactive-transport model for limestone-marl
sequences (file `LMAHeureuxPorosityDiffV2.py`, with the state layout of
`ScenarioA.py`).  Machine floats are idealised as real numbers; every
per-cell array is a function `ℕ → ℝ` together with the number of depth
cells it is meant for.
-/

noncomputable section

/-- Boundary condition for one side of the grid, as the repository passes
them to py-pde: either a fixed value (a Dirichlet condition, written
`{"value": v}` in the source) or a zero-derivative Neumann condition
(written `{"derivative": 0}`). -/
inductive BC where
  | value (v : ℝ)
  | derivZero

/-- Modelled from the spec: the external Grid Adapter (py-pde) fills a
ghost cell from the boundary condition; a fixed value puts that value in
the ghost cell, a zero-derivative condition mirrors the adjacent interior
cell. -/
def ghostCell (bc : BC) (adjacent : ℝ) : ℝ :=
  match bc with
  | BC.value v => v
  | BC.derivZero => adjacent

/-- Modelled from the spec: the external Grid Adapter's ghost-padded data
array for a field of `n` cells.  Index `0` is the top (left) ghost cell,
indices `1 .. n` are the field values, and any index beyond `n` is the
bottom (right) ghost cell. -/
def paddedData (n : ℕ) (f : ℕ → ℝ) (bc : BC × BC) (k : ℕ) : ℝ :=
  if k = 0 then ghostCell bc.1 (f 0)
  else if k ≤ n then f (k - 1)
  else ghostCell bc.2 (f (n - 1))

/-- Modelled from the spec: the external backward-difference gradient
operator registered as `grad_back` (py-pde `_make_derivative` with
`method="backward"`): cell `i` holds `(f[i] - f[i-1]) / dx` on the
ghost-padded array. -/
def gradBack (n : ℕ) (dx : ℝ) (f : ℕ → ℝ) (bc : BC × BC) (i : ℕ) : ℝ :=
  (paddedData n f bc (i + 1) - paddedData n f bc i) / dx

/-- Modelled from the spec: the external forward-difference gradient
operator registered as `grad_forw`: cell `i` holds `(f[i+1] - f[i]) / dx`
on the ghost-padded array. -/
def gradForw (n : ℕ) (dx : ℝ) (f : ℕ → ℝ) (bc : BC × BC) (i : ℕ) : ℝ :=
  (paddedData n f bc (i + 2) - paddedData n f bc (i + 1)) / dx

/-- Modelled from the spec: the external centered Laplacian operator used
by `field.laplace(bc)`: cell `i` holds `(f[i-1] - 2 f[i] + f[i+1]) / dx²`
on the ghost-padded array. -/
def laplace (n : ℕ) (dx : ℝ) (f : ℕ → ℝ) (bc : BC × BC) (i : ℕ) : ℝ :=
  (paddedData n f bc (i + 2) - 2 * paddedData n f bc (i + 1) + paddedData n f bc i) / dx ^ 2

/-- The slice `y[slices_for_all_fields[f]]` of the flat state vector:
field `f` occupies indices `[f*n, (f+1)*n)` (`ScenarioA.py`,
`slices_for_all_fields`). -/
def fieldSlice (n f : ℕ) (y : ℕ → ℝ) : ℕ → ℝ :=
  fun k => y (f * n + k)

/-- Flattening the five field arrays, in the fixed order CA, CC, cCa,
cCO3, Phi, into one length-`5*n` state vector
(`FieldCollection([...]).data.ravel()` in the source). -/
def flatten5 (n : ℕ) (CA CC cCa cCO3 Phi : ℕ → ℝ) : ℕ → ℝ :=
  fun m =>
    if m < n then CA m
    else if m < 2 * n then CC (m - n)
    else if m < 3 * n then cCa (m - 2 * n)
    else if m < 4 * n then cCO3 (m - 3 * n)
    else Phi (m - 4 * n)

/-- Lower Peclet guard threshold, `self.Peclet_min = 1e-2` in `__init__`. -/
def Peclet_min : ℝ := 1 / 100

/-- Upper Peclet guard threshold, `self.Peclet_max = 1/self.Peclet_min`. -/
def Peclet_max : ℝ := 1 / Peclet_min

/-- The static method `calculate_sigma`, the per-cell Fiadeiro-Veronis
upwind weight: `0` for small Peclet, `sign(W)` for large Peclet and
`coth(Pe) - 1/Pe` in between. -/
def calculate_sigma (Pe W Pmin Pmax : ℝ) : ℝ :=
  if |Pe| < Pmin then 0
  else if |Pe| > Pmax then Real.sign W
  else Real.cosh Pe / Real.sinh Pe - 1 / Pe

/-- The model's scalar parameters and the two Heaviside masks, as derived
once in `LMAHeureuxPorosityDiff.__init__` and read by the right-hand-side
evaluators. -/
structure Params where
  KRat : ℝ
  m1 : ℝ
  m2 : ℝ
  n1 : ℝ
  n2 : ℝ
  nu1 : ℝ
  nu2 : ℝ
  presum : ℝ
  rhorat : ℝ
  lambda_ : ℝ
  Da : ℝ
  dCa : ℝ
  dCO3 : ℝ
  delta : ℝ
  auxcon : ℝ
  delta_x : ℝ
  not_too_deep : ℕ → ℝ
  not_too_shallow : ℕ → ℝ

/-- The boundary-condition pair `self.bc_CA = [{"value": CA0},
{"value": 1e99}]`: the bottom condition is the unused sentinel `1e99`. -/
def bc_CA (CA0 : ℝ) : BC × BC := (BC.value CA0, BC.value ((10 : ℝ) ^ (99 : ℕ)))

/-- The boundary-condition pair `self.bc_CC = [{"value": CC0},
{"value": 1e99}]`. -/
def bc_CC (CC0 : ℝ) : BC × BC := (BC.value CC0, BC.value ((10 : ℝ) ^ (99 : ℕ)))

namespace FunV

/-!  The intermediate arrays of the plain evaluator `fun`
(`LMAHeureuxPorosityDiffV2.py`, lines 146-249), one definition per local
variable, each a function of the five unpacked fields. -/

/-- Local `two_factors = cCa * cCO3`. -/
def two_factors (cCa cCO3 : ℕ → ℝ) (k : ℕ) : ℝ := cCa k * cCO3 k

/-- Local `two_factors_upp_lim = fmin(two_factors, 1)`. -/
def two_factors_upp_lim (cCa cCO3 : ℕ → ℝ) (k : ℕ) : ℝ :=
  min (two_factors cCa cCO3 k) 1

/-- Local `two_factors_low_lim = fmax(two_factors, 1)`. -/
def two_factors_low_lim (cCa cCO3 : ℕ → ℝ) (k : ℕ) : ℝ :=
  max (two_factors cCa cCO3 k) 1

/-- Local `three_factors = two_factors * KRat`. -/
def three_factors (p : Params) (cCa cCO3 : ℕ → ℝ) (k : ℕ) : ℝ :=
  two_factors cCa cCO3 k * p.KRat

/-- Local `three_factors_upp_lim = fmin(three_factors, 1)`. -/
def three_factors_upp_lim (p : Params) (cCa cCO3 : ℕ → ℝ) (k : ℕ) : ℝ :=
  min (three_factors p cCa cCO3 k) 1

/-- Local `three_factors_low_lim = fmax(three_factors, 1)`. -/
def three_factors_low_lim (p : Params) (cCa cCO3 : ℕ → ℝ) (k : ℕ) : ℝ :=
  max (three_factors p cCa cCO3 k) 1

/-- Local `coA`, the aragonite precipitation/dissolution rate. -/
def coA (p : Params) (CA cCa cCO3 : ℕ → ℝ) (k : ℕ) : ℝ :=
  CA k * ((1 - three_factors_upp_lim p cCa cCO3 k) ^ p.m2 *
      (p.not_too_deep k * p.not_too_shallow k) - p.nu1 *
      (three_factors_low_lim p cCa cCO3 k - 1) ^ p.m1)

/-- Local `coC`, the calcite precipitation/dissolution rate. -/
def coC (p : Params) (CC cCa cCO3 : ℕ → ℝ) (k : ℕ) : ℝ :=
  CC k * ((two_factors_low_lim cCa cCO3 k - 1) ^ p.n1 - p.nu2 *
      (1 - two_factors_upp_lim cCa cCO3 k) ^ p.n2)

/-- Local `F = 1 - exp(10 - 10 / Phi)`. -/
def F (Phi : ℕ → ℝ) (k : ℕ) : ℝ := 1 - Real.exp (10 - 10 / Phi k)

/-- Local `U = presum + rhorat * Phi ** 3 * F / (1 - Phi)`. -/
def U (p : Params) (Phi : ℕ → ℝ) (k : ℕ) : ℝ :=
  p.presum + p.rhorat * Phi k ^ 3 * F Phi k / (1 - Phi k)

/-- Local `W = presum - rhorat * Phi ** 2 * F`. -/
def W (p : Params) (Phi : ℕ → ℝ) (k : ℕ) : ℝ :=
  p.presum - p.rhorat * Phi k ^ 2 * F Phi k

/-- Local `denominator = 1 - 2 * log(Phi)`. -/
def denominator (Phi : ℕ → ℝ) (k : ℕ) : ℝ := 1 - 2 * Real.log (Phi k)

/-- Local `common_Peclet = W * delta_x / 2`. -/
def common_Peclet (p : Params) (Phi : ℕ → ℝ) (k : ℕ) : ℝ :=
  W p Phi k * p.delta_x / 2

/-- Local `Peclet_cCa = common_Peclet * denominator / dCa`. -/
def Peclet_cCa (p : Params) (Phi : ℕ → ℝ) (k : ℕ) : ℝ :=
  common_Peclet p Phi k * denominator Phi k / p.dCa

/-- Local `sigma_cCa = calculate_sigma(Peclet_cCa, W, Peclet_min, Peclet_max)`. -/
def sigma_cCa (p : Params) (Phi : ℕ → ℝ) (k : ℕ) : ℝ :=
  calculate_sigma (Peclet_cCa p Phi k) (W p Phi k) Peclet_min Peclet_max

/-- Local `Peclet_cCO3 = common_Peclet * denominator / dCO3`. -/
def Peclet_cCO3 (p : Params) (Phi : ℕ → ℝ) (k : ℕ) : ℝ :=
  common_Peclet p Phi k * denominator Phi k / p.dCO3

/-- Local `sigma_cCO3 = calculate_sigma(Peclet_cCO3, W, Peclet_min, Peclet_max)`. -/
def sigma_cCO3 (p : Params) (Phi : ℕ → ℝ) (k : ℕ) : ℝ :=
  calculate_sigma (Peclet_cCO3 p Phi k) (W p Phi k) Peclet_min Peclet_max

/-- Local `dPhi = auxcon * F * (Phi ** 3) / (1 - Phi)`. -/
def dPhi (p : Params) (Phi : ℕ → ℝ) (k : ℕ) : ℝ :=
  p.auxcon * F Phi k * Phi k ^ 3 / (1 - Phi k)

/-- Local `Peclet_Phi = common_Peclet / dPhi`. -/
def Peclet_Phi (p : Params) (Phi : ℕ → ℝ) (k : ℕ) : ℝ :=
  common_Peclet p Phi k / dPhi p Phi k

/-- Local `sigma_Phi = calculate_sigma(Peclet_Phi, W, Peclet_min, Peclet_max)`. -/
def sigma_Phi (p : Params) (Phi : ℕ → ℝ) (k : ℕ) : ℝ :=
  calculate_sigma (Peclet_Phi p Phi k) (W p Phi k) Peclet_min Peclet_max

/-- Local `cCa_grad`, the Fiadeiro-Veronis blend of the forward and
backward gradients of cCa. -/
def cCa_grad (p : Params) (n : ℕ) (bc : BC × BC) (cCa Phi : ℕ → ℝ) (k : ℕ) : ℝ :=
  0.5 * ((1 - sigma_cCa p Phi k) * gradForw n p.delta_x cCa bc k +
    (1 + sigma_cCa p Phi k) * gradBack n p.delta_x cCa bc k)

/-- Local `cCO3_grad`, the Fiadeiro-Veronis blend for cCO3. -/
def cCO3_grad (p : Params) (n : ℕ) (bc : BC × BC) (cCO3 Phi : ℕ → ℝ) (k : ℕ) : ℝ :=
  0.5 * ((1 - sigma_cCO3 p Phi k) * gradForw n p.delta_x cCO3 bc k +
    (1 + sigma_cCO3 p Phi k) * gradBack n p.delta_x cCO3 bc k)

/-- Local `Phi_grad`, the Fiadeiro-Veronis blend for Phi. -/
def Phi_grad (p : Params) (n : ℕ) (bc : BC × BC) (Phi : ℕ → ℝ) (k : ℕ) : ℝ :=
  0.5 * ((1 - sigma_Phi p Phi k) * gradForw n p.delta_x Phi bc k +
    (1 + sigma_Phi p Phi k) * gradBack n p.delta_x Phi bc k)

/-- Local `Phi_denom = Phi / denominator`. -/
def Phi_denom (Phi : ℕ → ℝ) (k : ℕ) : ℝ := Phi k / denominator Phi k

/-- Local `grad_Phi_denom = Phi_grad * (denominator + 2) / denominator ** 2`. -/
def grad_Phi_denom (p : Params) (n : ℕ) (bcPhi : BC × BC) (Phi : ℕ → ℝ) (k : ℕ) : ℝ :=
  Phi_grad p n bcPhi Phi k * (denominator Phi k + 2) / denominator Phi k ^ 2

/-- Local `common_helper = coA - lambda_ * coC`. -/
def common_helper (p : Params) (CA CC cCa cCO3 : ℕ → ℝ) (k : ℕ) : ℝ :=
  coA p CA cCa cCO3 k - p.lambda_ * coC p CC cCa cCO3 k

/-- Local `dW_dx = -rhorat * Phi_grad * (2 * Phi * F + 10 * (F - 1))`. -/
def dW_dx (p : Params) (n : ℕ) (bcPhi : BC × BC) (Phi : ℕ → ℝ) (k : ℕ) : ℝ :=
  -p.rhorat * Phi_grad p n bcPhi Phi k * (2 * Phi k * F Phi k + 10 * (F Phi k - 1))

/-- The dCA/dt array assembled by `fun`: pure backward differencing for
the gradient of CA. -/
def dCA_dt (p : Params) (n : ℕ) (bcCA : BC × BC) (CA CC cCa cCO3 Phi : ℕ → ℝ) (k : ℕ) : ℝ :=
  -U p Phi k * gradBack n p.delta_x CA bcCA k - p.Da * ((1 - CA k) *
    coA p CA cCa cCO3 k + p.lambda_ * CA k * coC p CC cCa cCO3 k)

/-- The dCC/dt array assembled by `fun`. -/
def dCC_dt (p : Params) (n : ℕ) (bcCC : BC × BC) (CA CC cCa cCO3 Phi : ℕ → ℝ) (k : ℕ) : ℝ :=
  -U p Phi k * gradBack n p.delta_x CC bcCC k + p.Da * (p.lambda_ *
    (1 - CC k) * coC p CC cCa cCO3 k + CC k * coA p CA cCa cCO3 k)

/-- The dcCa/dt array assembled by `fun`. -/
def dcCa_dt (p : Params) (n : ℕ) (bccCa bcPhi : BC × BC)
    (CA CC cCa cCO3 Phi : ℕ → ℝ) (k : ℕ) : ℝ :=
  (cCa_grad p n bccCa cCa Phi k * grad_Phi_denom p n bcPhi Phi k +
      Phi_denom Phi k * laplace n p.delta_x cCa bccCa k) * p.dCa / Phi k -
    W p Phi k * cCa_grad p n bccCa cCa Phi k +
    p.Da * (1 - Phi k) * (p.delta - cCa k) * common_helper p CA CC cCa cCO3 k / Phi k

/-- The dcCO3/dt array assembled by `fun`. -/
def dcCO3_dt (p : Params) (n : ℕ) (bccCO3 bcPhi : BC × BC)
    (CA CC cCa cCO3 Phi : ℕ → ℝ) (k : ℕ) : ℝ :=
  (cCO3_grad p n bccCO3 cCO3 Phi k * grad_Phi_denom p n bcPhi Phi k +
      Phi_denom Phi k * laplace n p.delta_x cCO3 bccCO3 k) * p.dCO3 / Phi k -
    W p Phi k * cCO3_grad p n bccCO3 cCO3 Phi k +
    p.Da * (1 - Phi k) * (p.delta - cCO3 k) * common_helper p CA CC cCa cCO3 k / Phi k

/-- The dPhi/dt array assembled by `fun`. -/
def dPhi_dt (p : Params) (n : ℕ) (bcPhi : BC × BC)
    (CA CC cCa cCO3 Phi : ℕ → ℝ) (k : ℕ) : ℝ :=
  -(Phi k * dW_dx p n bcPhi Phi k + W p Phi k * Phi_grad p n bcPhi Phi k) +
    dPhi p Phi k * laplace n p.delta_x Phi bcPhi k +
    p.Da * (1 - Phi k) * common_helper p CA CC cCa cCO3 k

end FunV

/-- The plain array-expression right-hand-side evaluator `fun`: unpack the
five fields from the flat state vector, assemble the five derivative
arrays and flatten them back in the same order.  The progress-reporting
side effect on `last_t` is modelled separately by `update_last_t`. -/
def funRHS (p : Params) (n : ℕ) (bcCA bcCC bccCa bccCO3 bcPhi : BC × BC)
    (y : ℕ → ℝ) : ℕ → ℝ :=
  fun m =>
    if m < n then
      FunV.dCA_dt p n bcCA (fieldSlice n 0 y) (fieldSlice n 1 y)
        (fieldSlice n 2 y) (fieldSlice n 3 y) (fieldSlice n 4 y) m
    else if m < 2 * n then
      FunV.dCC_dt p n bcCC (fieldSlice n 0 y) (fieldSlice n 1 y)
        (fieldSlice n 2 y) (fieldSlice n 3 y) (fieldSlice n 4 y) (m - n)
    else if m < 3 * n then
      FunV.dcCa_dt p n bccCa bcPhi (fieldSlice n 0 y) (fieldSlice n 1 y)
        (fieldSlice n 2 y) (fieldSlice n 3 y) (fieldSlice n 4 y) (m - 2 * n)
    else if m < 4 * n then
      FunV.dcCO3_dt p n bccCO3 bcPhi (fieldSlice n 0 y) (fieldSlice n 1 y)
        (fieldSlice n 2 y) (fieldSlice n 3 y) (fieldSlice n 4 y) (m - 3 * n)
    else if m < 5 * n then
      FunV.dPhi_dt p n bcPhi (fieldSlice n 0 y) (fieldSlice n 1 y)
        (fieldSlice n 2 y) (fieldSlice n 3 y) (fieldSlice n 4 y) (m - 4 * n)
    else 0

/-- The body of the per-cell loop of the fused numba kernel `pde_rhs`:
all local scalars of one loop iteration `i`, with `sel` picking which of
the five `rate[sel*no_depths + i]` assignments is read. -/
def pde_rhs_cell (CA CC cCa cCO3 Phi : ℕ → ℝ) (KRat m1 m2 n1 n2 nu1 nu2 : ℝ)
    (not_too_deep not_too_shallow : ℕ → ℝ)
    (presum rhorat lambda_ Da dCa dCO3 delta auxcon : ℝ)
    (CA_grad_back CC_grad_back cCa_grad_back cCa_grad_forw cCa_laplace
      cCO3_grad_back cCO3_grad_forw cCO3_laplace Phi_grad_back Phi_grad_forw
      Phi_laplace : ℕ → ℝ)
    (delta_x Pmin Pmax : ℝ) (i sel : ℕ) : ℝ :=
      let F := 1 - Real.exp (10 - 10 / Phi i)
      let U := presum + rhorat * Phi i ^ 3 * F / (1 - Phi i)
      let CA_grad := CA_grad_back i
      let CC_grad := CC_grad_back i
      let W := presum - rhorat * Phi i ^ 2 * F
      let denominator := 1 - 2 * Real.log (Phi i)
      let Peclet_cCa := W * delta_x * denominator / (2 * dCa)
      let sigma_cCa :=
        if |Peclet_cCa| < Pmin then 0
        else if |Peclet_cCa| > Pmax then Real.sign W
        else Real.cosh Peclet_cCa / Real.sinh Peclet_cCa - 1 / Peclet_cCa
      let Peclet_cCO3 := W * delta_x * denominator / (2 * dCO3)
      let sigma_cCO3 :=
        if |Peclet_cCO3| < Pmin then 0
        else if |Peclet_cCO3| > Pmax then Real.sign W
        else Real.cosh Peclet_cCO3 / Real.sinh Peclet_cCO3 - 1 / Peclet_cCO3
      let one_minus_Phi := 1 - Phi i
      let dPhi := auxcon * F * Phi i ^ 3 / one_minus_Phi
      let Peclet_Phi := W * delta_x / (2 * dPhi)
      let sigma_Phi :=
        if |Peclet_Phi| < Pmin then 0
        else if |Peclet_Phi| > Pmax then Real.sign W
        else Real.cosh Peclet_Phi / Real.sinh Peclet_Phi - 1 / Peclet_Phi
      let cCa_grad := 0.5 * ((1 - sigma_cCa) * cCa_grad_forw i +
        (1 + sigma_cCa) * cCa_grad_back i)
      let cCO3_grad := 0.5 * ((1 - sigma_cCO3) * cCO3_grad_forw i +
        (1 + sigma_cCO3) * cCO3_grad_back i)
      let Phi_grad := 0.5 * ((1 - sigma_Phi) * Phi_grad_forw i +
        (1 + sigma_Phi) * Phi_grad_back i)
      let common_helper1 := Phi i / denominator
      let common_helper2 := Phi_grad * (2 + denominator) / denominator ^ 2
      let helper_cCa_grad := dCa * (common_helper2 * cCa_grad +
        common_helper1 * cCa_laplace i)
      let helper_cCO3_grad := dCO3 * (common_helper2 * cCO3_grad +
        common_helper1 * cCO3_laplace i)
      let two_factors := cCa i * cCO3 i
      let two_factors_upp_lim := min two_factors 1
      let two_factors_low_lim := max two_factors 1
      let three_factors := two_factors * KRat
      let three_factors_upp_lim := min three_factors 1
      let three_factors_low_lim := max three_factors 1
      let coA := CA i * ((1 - three_factors_upp_lim) ^ m2 *
        (not_too_deep i * not_too_shallow i) - nu1 *
        (three_factors_low_lim - 1) ^ m1)
      let coC := CC i * ((two_factors_low_lim - 1) ^ n1 - nu2 *
        (1 - two_factors_upp_lim) ^ n2)
      let common_helper3 := coA - lambda_ * coC
      let dW_dx := -rhorat * Phi_grad * (2 * Phi i * F + 10 * (F - 1))
      if sel = 0 then
        -U * CA_grad - Da * ((1 - CA i) * coA + lambda_ * CA i * coC)
      else if sel = 1 then
        -U * CC_grad + Da * (lambda_ * (1 - CC i) * coC + CC i * coA)
      else if sel = 2 then
        helper_cCa_grad / Phi i - W * cCa_grad +
          Da * one_minus_Phi * (delta - cCa i) * common_helper3 / Phi i
      else if sel = 3 then
        helper_cCO3_grad / Phi i - W * cCO3_grad +
          Da * one_minus_Phi * (delta - cCO3 i) * common_helper3 / Phi i
      else
        -(dW_dx * Phi i + W * Phi_grad) + dPhi * Phi_laplace i +
          Da * one_minus_Phi * common_helper3

/-- The fused per-cell numba kernel `pde_rhs`: given the five field
arrays, all scalar parameters and the precomputed gradient and Laplacian
arrays, fill the length-`5*no_depths` rate vector cell by cell.  The rate
vector is encoded as a function of the flat index, each entry read off
from the matching `rate[...]` assignment of the loop body
`pde_rhs_cell`. -/
def pde_rhs (CA CC cCa cCO3 Phi : ℕ → ℝ) (KRat m1 m2 n1 n2 nu1 nu2 : ℝ)
    (not_too_deep not_too_shallow : ℕ → ℝ)
    (presum rhorat lambda_ Da dCa dCO3 delta auxcon : ℝ)
    (CA_grad_back CC_grad_back cCa_grad_back cCa_grad_forw cCa_laplace
      cCO3_grad_back cCO3_grad_forw cCO3_laplace Phi_grad_back Phi_grad_forw
      Phi_laplace : ℕ → ℝ)
    (delta_x Pmin Pmax : ℝ) (no_depths : ℕ) : ℕ → ℝ :=
  fun m =>
    let cell : ℕ → ℕ → ℝ := fun i sel =>
      pde_rhs_cell CA CC cCa cCO3 Phi KRat m1 m2 n1 n2 nu1 nu2
        not_too_deep not_too_shallow presum rhorat lambda_ Da dCa dCO3 delta
        auxcon CA_grad_back CC_grad_back cCa_grad_back cCa_grad_forw
        cCa_laplace cCO3_grad_back cCO3_grad_forw cCO3_laplace Phi_grad_back
        Phi_grad_forw Phi_laplace delta_x Pmin Pmax i sel
    if m < no_depths then cell m 0
    else if m < 2 * no_depths then cell (m - no_depths) 1
    else if m < 3 * no_depths then cell (m - 2 * no_depths) 2
    else if m < 4 * no_depths then cell (m - 3 * no_depths) 3
    else if m < 5 * no_depths then cell (m - 4 * no_depths) 4
    else 0

/-- The numba-accelerated evaluator `fun_numba`: unpack the fields,
compute the backward/forward gradients and Laplacians through the grid
operators, and delegate all arithmetic to `pde_rhs`. -/
def fun_numba (p : Params) (n : ℕ) (bcCA bcCC bccCa bccCO3 bcPhi : BC × BC)
    (y : ℕ → ℝ) : ℕ → ℝ :=
  pde_rhs (fieldSlice n 0 y) (fieldSlice n 1 y) (fieldSlice n 2 y)
    (fieldSlice n 3 y) (fieldSlice n 4 y) p.KRat p.m1 p.m2 p.n1 p.n2 p.nu1
    p.nu2 p.not_too_deep p.not_too_shallow p.presum p.rhorat p.lambda_ p.Da
    p.dCa p.dCO3 p.delta p.auxcon
    (gradBack n p.delta_x (fieldSlice n 0 y) bcCA)
    (gradBack n p.delta_x (fieldSlice n 1 y) bcCC)
    (gradBack n p.delta_x (fieldSlice n 2 y) bccCa)
    (gradForw n p.delta_x (fieldSlice n 2 y) bccCa)
    (laplace n p.delta_x (fieldSlice n 2 y) bccCa)
    (gradBack n p.delta_x (fieldSlice n 3 y) bccCO3)
    (gradForw n p.delta_x (fieldSlice n 3 y) bccCO3)
    (laplace n p.delta_x (fieldSlice n 3 y) bccCO3)
    (gradBack n p.delta_x (fieldSlice n 4 y) bcPhi)
    (gradForw n p.delta_x (fieldSlice n 4 y) bcPhi)
    (laplace n p.delta_x (fieldSlice n 4 y) bcPhi)
    p.delta_x Peclet_min Peclet_max n

/-- One summand of `jacobian_sparsity`'s loop: the sparse matrix
`csr_matrix((ones, (i*no_depths + row, j*no_depths + col)))`, a diagonal
block of ones placed at block position `(i, j)`. -/
def block_entry (no_depths i j r c : ℕ) : ℝ :=
  if ∃ k ∈ Finset.range no_depths, r = i * no_depths + k ∧ c = j * no_depths + k
  then 1 else 0

/-- The method `jacobian_sparsity`: the sum over all block positions
`(i, j)` with `i < no_fields - 1 or j > 1` of a diagonal block of ones,
viewed entrywise. -/
def jacobian_sparsity (no_fields no_depths : ℕ) (r c : ℕ) : ℝ :=
  ∑ i ∈ Finset.range no_fields, ∑ j ∈ Finset.range no_fields,
    if i < no_fields - 1 ∨ 1 < j then block_entry no_depths i j r c else 0

/-- The value `np.amin(f)` over the first `m` entries of `f` (`0` for an
empty range, which numpy would reject). -/
def amin (m : ℕ) (f : ℕ → ℝ) : ℝ :=
  if h : (Finset.range m).Nonempty then (Finset.range m).inf' h f else 0

/-- The value `np.amax(f)` over the first `m` entries of `f`. -/
def amax (m : ℕ) (f : ℕ → ℝ) : ℝ :=
  if h : (Finset.range m).Nonempty then (Finset.range m).sup' h f else 0

/-- Event `zeros`: `np.amin(y)` over the whole length-`5*n` state. -/
def zeros (n : ℕ) (y : ℕ → ℝ) : ℝ := amin (5 * n) y

/-- Event `zeros_CA`: `np.amin(y[self.CA_sl])`. -/
def zeros_CA (n : ℕ) (y : ℕ → ℝ) : ℝ := amin n (fieldSlice n 0 y)

/-- Event `zeros_CC`: `np.amin(y[self.CC_sl])`. -/
def zeros_CC (n : ℕ) (y : ℕ → ℝ) : ℝ := amin n (fieldSlice n 1 y)

/-- Event `ones_CA_plus_CC`: `np.amax(CA + CC) - 1`. -/
def ones_CA_plus_CC (n : ℕ) (y : ℕ → ℝ) : ℝ :=
  amax n (fun k => fieldSlice n 0 y k + fieldSlice n 1 y k) - 1

/-- Event `ones_Phi`: `np.amax(Phi) - 1`. -/
def ones_Phi (n : ℕ) (y : ℕ → ℝ) : ℝ :=
  amax n (fieldSlice n 4 y) - 1

/-- Event `zeros_U`: recompute `F` and `U` from the Phi slice with the
formulas written out again in the source, and return `np.amin(U)`. -/
def zeros_U (p : Params) (n : ℕ) (y : ℕ → ℝ) : ℝ :=
  amin n (fun k =>
    p.presum + p.rhorat * fieldSlice n 4 y k ^ 3 *
      (1 - Real.exp (10 - 10 / fieldSlice n 4 y k)) / (1 - fieldSlice n 4 y k))

/-- Event `zeros_W`: recompute `F` and `W` from the Phi slice and return
`np.amax(W)`. -/
def zeros_W (p : Params) (n : ℕ) (y : ℕ → ℝ) : ℝ :=
  amax n (fun k =>
    p.presum - p.rhorat * fieldSlice n 4 y k ^ 2 *
      (1 - Real.exp (10 - 10 / fieldSlice n 4 y k)))

/-- Python's `int()` truncation toward zero of a real number. -/
def pyInt (x : ℝ) : ℤ := if 0 ≤ x then ⌊x⌋ else ⌈x⌉

/-- The progress-reporting mutation of `self.last_t` performed at the top
of `fun`, `fun_numba` and `jac`: seed `last_t` with `t0` on the first
call, then advance it by `int((t - last_t)/progress_dt)` steps of
`progress_dt`. -/
def update_last_t (t progress_dt t0 last_t : ℝ) : ℝ :=
  let l := if last_t = 0 then t0 else last_t
  l + (pyInt ((t - l) / progress_dt) : ℝ) * progress_dt

/-- A sample parameter set, used to instantiate theorems at concrete
inputs. -/
def Psample : Params :=
  ⟨1, 1, 1, 1, 1, 1, 1, 1, 1, 1, 1, 1, 1, 1, 1, 1, fun _ => 1, fun _ => 1⟩

/-- A sample state vector, constant one. -/
def ysample : ℕ → ℝ := fun _ => 1

/-- A sample state vector for one depth cell whose CA entry (index 0) is
negative and whose other entries are positive. -/
def yneg : ℕ → ℝ := fun m => if m = 0 then -1 else 1

/-- A sample boundary-condition pair. -/
def bcSample : BC × BC := (BC.value 1, BC.derivZero)

/-!  ## Theorems  -/

theorem paddedData_bottom_irrelevant (n : ℕ) (f : ℕ → ℝ) (top b1 b2 : BC)
    (k : ℕ) (hk : k ≤ n) :
    paddedData n f (top, b1) k = paddedData n f (top, b2) k := by
  unfold paddedData
  split_ifs with h1
  · rfl
  · rfl

theorem gradBack_bottom_irrelevant (n : ℕ) (dx : ℝ) (f : ℕ → ℝ)
    (top b1 b2 : BC) (i : ℕ) (hi : i < n) :
    gradBack n dx f (top, b1) i = gradBack n dx f (top, b2) i := by
  unfold gradBack
  rw [paddedData_bottom_irrelevant n f top b1 b2 (i + 1) (by omega),
    paddedData_bottom_irrelevant n f top b1 b2 i (by omega)]

/-- C6: two-run noninterference for the unused bottom boundary condition
of CA and CC.  Changing the bottom value changes neither the backward
gradient of the CA or CC slice nor the CA or CC component of the
right-hand side returned by `fun`. -/
theorem C6_bottom_bc_noninterference (p : Params) (n : ℕ)
    (bcCC bccCa bccCO3 bcPhi : BC × BC) (CA0 CC0 v1 v2 : ℝ) (y : ℕ → ℝ)
    (i : ℕ) (hi : i < n) :
    gradBack n p.delta_x (fieldSlice n 0 y) (BC.value CA0, BC.value v1) i =
      gradBack n p.delta_x (fieldSlice n 0 y) (BC.value CA0, BC.value v2) i ∧
    gradBack n p.delta_x (fieldSlice n 1 y) (BC.value CC0, BC.value v1) i =
      gradBack n p.delta_x (fieldSlice n 1 y) (BC.value CC0, BC.value v2) i ∧
    funRHS p n (BC.value CA0, BC.value v1) bcCC bccCa bccCO3 bcPhi y i =
      funRHS p n (BC.value CA0, BC.value v2) bcCC bccCa bccCO3 bcPhi y i ∧
    funRHS p n (bc_CA CA0) (BC.value CC0, BC.value v1) bccCa bccCO3 bcPhi y (n + i) =
      funRHS p n (bc_CA CA0) (BC.value CC0, BC.value v2) bccCa bccCO3 bcPhi y (n + i) := by
  refine ⟨gradBack_bottom_irrelevant n p.delta_x _ _ _ _ i hi,
    gradBack_bottom_irrelevant n p.delta_x _ _ _ _ i hi, ?_, ?_⟩
  · simp only [funRHS, if_pos hi, FunV.dCA_dt]
    rw [gradBack_bottom_irrelevant n p.delta_x _ _ _ _ i hi]
  · have h1 : ¬ n + i < n := by omega
    have h2 : n + i < 2 * n := by omega
    simp only [funRHS, if_neg h1, if_pos h2, FunV.dCC_dt]
    rw [gradBack_bottom_irrelevant n p.delta_x _ _ _ _ (n + i - n) (by omega)]

theorem C6_witness :
    gradBack 1 Psample.delta_x (fieldSlice 1 0 ysample) (BC.value 3, BC.value 7) 0 =
      gradBack 1 Psample.delta_x (fieldSlice 1 0 ysample) (BC.value 3, BC.value 9) 0 ∧
    gradBack 1 Psample.delta_x (fieldSlice 1 1 ysample) (BC.value 4, BC.value 7) 0 =
      gradBack 1 Psample.delta_x (fieldSlice 1 1 ysample) (BC.value 4, BC.value 9) 0 ∧
    funRHS Psample 1 (BC.value 3, BC.value 7) bcSample bcSample bcSample bcSample ysample 0 =
      funRHS Psample 1 (BC.value 3, BC.value 9) bcSample bcSample bcSample bcSample ysample 0 ∧
    funRHS Psample 1 (bc_CA 3) (BC.value 4, BC.value 7) bcSample bcSample bcSample ysample 1 =
      funRHS Psample 1 (bc_CA 3) (BC.value 4, BC.value 9) bcSample bcSample bcSample ysample 1 :=
  C6_bottom_bc_noninterference Psample 1 bcSample bcSample bcSample bcSample
    3 4 7 9 ysample 0 (by norm_num)

/-- C8: round-trip of the state layout.  Flattening the five fields in
the fixed order CA, CC, cCa, cCO3, Phi and slicing the result back out
recovers each field exactly. -/
theorem C8_layout_roundtrip (n : ℕ) (CA CC cCa cCO3 Phi : ℕ → ℝ) (k : ℕ)
    (hk : k < n) :
    fieldSlice n 0 (flatten5 n CA CC cCa cCO3 Phi) k = CA k ∧
    fieldSlice n 1 (flatten5 n CA CC cCa cCO3 Phi) k = CC k ∧
    fieldSlice n 2 (flatten5 n CA CC cCa cCO3 Phi) k = cCa k ∧
    fieldSlice n 3 (flatten5 n CA CC cCa cCO3 Phi) k = cCO3 k ∧
    fieldSlice n 4 (flatten5 n CA CC cCa cCO3 Phi) k = Phi k := by
  refine ⟨?_, ?_, ?_, ?_, ?_⟩ <;>
  · simp only [fieldSlice, flatten5]
    split_ifs with h1 h2 h3 h4 <;> (congr 1; omega)

theorem C8_witness :
    fieldSlice 1 0 (flatten5 1 ysample ysample ysample ysample ysample) 0 = ysample 0 ∧
    fieldSlice 1 1 (flatten5 1 ysample ysample ysample ysample ysample) 0 = ysample 0 ∧
    fieldSlice 1 2 (flatten5 1 ysample ysample ysample ysample ysample) 0 = ysample 0 ∧
    fieldSlice 1 3 (flatten5 1 ysample ysample ysample ysample ysample) 0 = ysample 0 ∧
    fieldSlice 1 4 (flatten5 1 ysample ysample ysample ysample ysample) 0 = ysample 0 :=
  C8_layout_roundtrip 1 ysample ysample ysample ysample ysample 0 (by norm_num)

/-- C10: saturation-clamp mutual exclusion.  For each of the two clamped
products, `(1 - min(P,1)) * (max(P,1) - 1) = 0`, and hence at most one of
the precipitation and dissolution terms inside `coA` (and inside `coC`)
is nonzero whenever the exponents are nonzero. -/
theorem C10_clamp_mutual_exclusion (p : Params) (cCa cCO3 : ℕ → ℝ) (k : ℕ) :
    (1 - FunV.two_factors_upp_lim cCa cCO3 k) *
      (FunV.two_factors_low_lim cCa cCO3 k - 1) = 0 ∧
    (1 - FunV.three_factors_upp_lim p cCa cCO3 k) *
      (FunV.three_factors_low_lim p cCa cCO3 k - 1) = 0 ∧
    (p.m1 ≠ 0 → p.m2 ≠ 0 →
      (1 - FunV.three_factors_upp_lim p cCa cCO3 k) ^ p.m2 *
          (p.not_too_deep k * p.not_too_shallow k) = 0 ∨
        p.nu1 * (FunV.three_factors_low_lim p cCa cCO3 k - 1) ^ p.m1 = 0) ∧
    (p.n1 ≠ 0 → p.n2 ≠ 0 →
      (FunV.two_factors_low_lim cCa cCO3 k - 1) ^ p.n1 = 0 ∨
        p.nu2 * (1 - FunV.two_factors_upp_lim cCa cCO3 k) ^ p.n2 = 0) := by
  unfold FunV.two_factors_upp_lim FunV.two_factors_low_lim
    FunV.three_factors_upp_lim FunV.three_factors_low_lim
  refine ⟨?_, ?_, ?_, ?_⟩
  · rcases le_total (FunV.two_factors cCa cCO3 k) 1 with h | h
    · rw [max_eq_right h, sub_self, mul_zero]
    · rw [min_eq_right h, sub_self, zero_mul]
  · rcases le_total (FunV.three_factors p cCa cCO3 k) 1 with h | h
    · rw [max_eq_right h, sub_self, mul_zero]
    · rw [min_eq_right h, sub_self, zero_mul]
  · intro hm1 _
    rcases le_total (FunV.three_factors p cCa cCO3 k) 1 with h | h
    · exact Or.inr (by rw [max_eq_right h, sub_self, Real.zero_rpow hm1, mul_zero])
    · exact Or.inl (by rw [min_eq_right h, sub_self, Real.zero_rpow (by assumption), zero_mul])
  · intro hn1 hn2
    rcases le_total (FunV.two_factors cCa cCO3 k) 1 with h | h
    · exact Or.inl (by rw [max_eq_right h, sub_self, Real.zero_rpow hn1])
    · exact Or.inr (by rw [min_eq_right h, sub_self, Real.zero_rpow hn2, mul_zero])

/-- C9 counterexample: `last_t` is not monotone across calls.  With
`progress_dt = 1`, `t0 = 0` and current `last_t = 5`, a re-evaluation at
the earlier time `t = 1` drops `last_t` from 5 to 1, because
`int((t - last_t)/progress_dt)` is negative. -/
theorem C9_counterexample : update_last_t 1 1 0 5 < 5 := by
  unfold update_last_t pyInt
  norm_num
  rw [show ((-4 : ℝ)) = ((-4 : ℤ) : ℝ) by norm_num, Int.ceil_intCast]
  norm_num

/-- C9 (amended): `last_t` never decreases provided the call's time `t`
is at least the current (nonzero) `last_t` and `progress_dt` is
positive. -/
theorem C9_last_t_monotone_amended (t dt t0 L : ℝ) (hdt : 0 < dt)
    (hL : L ≠ 0) (hLt : L ≤ t) : L ≤ update_last_t t dt t0 L := by
  unfold update_last_t pyInt
  simp only [if_neg hL]
  have hx : 0 ≤ (t - L) / dt := div_nonneg (by linarith) hdt.le
  rw [if_pos hx]
  have hfl : (0 : ℝ) ≤ (⌊(t - L) / dt⌋ : ℝ) := by
    exact_mod_cast Int.floor_nonneg.mpr hx
  nlinarith

theorem C9_witness : (1 : ℝ) ≤ update_last_t 2 1 0 1 :=
  C9_last_t_monotone_amended 2 1 0 1 (by norm_num) (by norm_num) (by norm_num)

/-- C2: the three branches of `calculate_sigma` return 0 below the lower
Peclet guard, `sign(W)` above the upper guard and `coth(Pe) - 1/Pe` in
between, the guards being 1e-2 and 1e2; and `fun` blends the forward and
backward gradients as `0.5*((1-sigma)*forward + (1+sigma)*backward)`. -/
theorem C2_sigma_branches (Pe W : ℝ) :
    Peclet_min = 1 / 100 ∧ Peclet_max = 100 ∧
    (|Pe| < Peclet_min → calculate_sigma Pe W Peclet_min Peclet_max = 0) ∧
    (|Pe| > Peclet_max → calculate_sigma Pe W Peclet_min Peclet_max = Real.sign W) ∧
    (Peclet_min ≤ |Pe| → |Pe| ≤ Peclet_max →
      calculate_sigma Pe W Peclet_min Peclet_max =
        Real.cosh Pe / Real.sinh Pe - 1 / Pe) ∧
    (∀ (p : Params) (n : ℕ) (bc : BC × BC) (cCa Phi : ℕ → ℝ) (k : ℕ),
      FunV.cCa_grad p n bc cCa Phi k =
        0.5 * ((1 - calculate_sigma (FunV.Peclet_cCa p Phi k) (FunV.W p Phi k)
            Peclet_min Peclet_max) * gradForw n p.delta_x cCa bc k +
          (1 + calculate_sigma (FunV.Peclet_cCa p Phi k) (FunV.W p Phi k)
            Peclet_min Peclet_max) * gradBack n p.delta_x cCa bc k)) := by
  have hmin : Peclet_min = 1 / 100 := rfl
  have hmax : Peclet_max = 100 := by unfold Peclet_max Peclet_min; norm_num
  refine ⟨hmin, hmax, ?_, ?_, ?_, ?_⟩
  · intro h
    unfold calculate_sigma
    rw [if_pos h]
  · intro h
    unfold calculate_sigma
    rw [if_neg (by rw [hmin]; rw [hmax] at h; push_neg; linarith), if_pos h]
  · intro h1 h2
    unfold calculate_sigma
    rw [if_neg (not_lt.mpr h1), if_neg (not_lt.mpr h2)]
  · intro p n bc cCa Phi k
    rfl

theorem blockDecomp {N a b c d : ℕ} (hb : b < N) (hd : d < N)
    (h : a * N + b = c * N + d) : a = c ∧ b = d := by
  have key : ∀ x y u v : ℕ, y < N → v < N → x < u → x * N + y ≠ u * N + v := by
    intro x y u v hy _ hxu
    have h1 : (x + 1) * N ≤ u * N := Nat.mul_le_mul_right N (by omega)
    have h2 : x * N + y < (x + 1) * N := by
      have : (x + 1) * N = x * N + N := by ring
      omega
    omega
  have hac : a = c := by
    rcases Nat.lt_trichotomy a c with hlt | he | hgt
    · exact absurd h (key a b c d hb hd hlt)
    · exact he
    · exact absurd h.symm (key c d a b hd hb hgt)
  subst hac
  exact ⟨rfl, by omega⟩

theorem block_entry_eval {N k l : ℕ} (hk : k < N) (hl : l < N) (a b i j : ℕ) :
    block_entry N a b (i * N + k) (j * N + l) =
      if a = i ∧ b = j ∧ k = l then 1 else 0 := by
  unfold block_entry
  by_cases hc : a = i ∧ b = j ∧ k = l
  · obtain ⟨rfl, rfl, rfl⟩ := hc
    rw [if_pos ⟨k, Finset.mem_range.mpr hk, rfl, rfl⟩, if_pos ⟨rfl, rfl, rfl⟩]
  · rw [if_neg, if_neg hc]
    rintro ⟨q, hq, h1, h2⟩
    rw [Finset.mem_range] at hq
    obtain ⟨hia, hkq⟩ := blockDecomp hk hq h1
    obtain ⟨hjb, hlq⟩ := blockDecomp hl hq h2
    exact hc ⟨hia.symm, hjb.symm, by omega⟩

theorem block_entry_nonneg (N a b r c : ℕ) : (0 : ℝ) ≤ block_entry N a b r c := by
  unfold block_entry
  split_ifs <;> norm_num

/-- C3: viewed as a 5x5 grid of `N x N` blocks, the sparsity pattern of
`jacobian_sparsity` is nonzero exactly on the diagonal of every block
`(i, j)` with `i < no_fields - 1 or j > 1`; the two blocks (Phi-row,
CA-column) and (Phi-row, CC-column) are absent and no present block has
an off-diagonal entry. -/
theorem C3_jacobian_sparsity_structure (N i j k l : ℕ) (hi : i < 5)
    (hj : j < 5) (hk : k < N) (hl : l < N) :
    jacobian_sparsity 5 N (i * N + k) (j * N + l) ≠ 0 ↔
      k = l ∧ (i < 5 - 1 ∨ 1 < j) := by
  constructor
  · intro hne0
    by_contra hcon
    apply hne0
    unfold jacobian_sparsity
    apply Finset.sum_eq_zero
    intro a _
    apply Finset.sum_eq_zero
    intro b _
    by_cases hab : a = i ∧ b = j
    · obtain ⟨rfl, rfl⟩ := hab
      push_neg at hcon
      by_cases hkl : k = l
      · rw [if_neg]
        push_neg
        exact hcon hkl
      · have hz : block_entry N a b (a * N + k) (b * N + l) = 0 := by
          rw [block_entry_eval hk hl a b a b, if_neg]
          rintro ⟨-, -, h⟩
          exact hkl h
        rw [hz]
        split_ifs <;> rfl
    · have hz : block_entry N a b (i * N + k) (j * N + l) = 0 := by
        rw [block_entry_eval hk hl a b i j, if_neg]
        rintro ⟨h1, h2, -⟩
        exact hab ⟨h1, h2⟩
      rw [hz]
      split_ifs <;> rfl
  · rintro ⟨hkl, hcond⟩
    have hterm : (if i < 5 - 1 ∨ 1 < j then
        block_entry N i j (i * N + k) (j * N + l) else 0) = 1 := by
      rw [if_pos hcond, block_entry_eval hk hl i j i j, if_pos ⟨rfl, rfl, hkl⟩]
    have hinner : (1 : ℝ) ≤ ∑ b ∈ Finset.range 5,
        (if i < 5 - 1 ∨ 1 < b then block_entry N i b (i * N + k) (j * N + l) else 0) := by
      rw [← hterm]
      refine Finset.single_le_sum (f := fun b =>
        if i < 5 - 1 ∨ 1 < b then block_entry N i b (i * N + k) (j * N + l) else 0)
        (fun b _ => ?_) (Finset.mem_range.mpr hj)
      dsimp only
      split_ifs
      · exact block_entry_nonneg N i b _ _
      · exact le_refl 0
    have houter : (1 : ℝ) ≤ jacobian_sparsity 5 N (i * N + k) (j * N + l) := by
      unfold jacobian_sparsity
      calc (1 : ℝ) ≤ ∑ b ∈ Finset.range 5,
            (if i < 5 - 1 ∨ 1 < b then block_entry N i b (i * N + k) (j * N + l) else 0) :=
          hinner
        _ ≤ _ := by
          refine Finset.single_le_sum (f := fun a => ∑ b ∈ Finset.range 5,
            (if a < 5 - 1 ∨ 1 < b then block_entry N a b (i * N + k) (j * N + l) else 0))
            (fun a _ => ?_) (Finset.mem_range.mpr hi)
          dsimp only
          refine Finset.sum_nonneg fun b _ => ?_
          split_ifs
          · exact block_entry_nonneg N a b _ _
          · exact le_refl 0
    intro h0
    rw [h0] at houter
    linarith

theorem C3_witness :
    jacobian_sparsity 5 1 (0 * 1 + 0) (0 * 1 + 0) ≠ 0 ↔
      (0 : ℕ) = 0 ∧ ((0 : ℕ) < 5 - 1 ∨ 1 < (0 : ℕ)) :=
  C3_jacobian_sparsity_structure 1 0 0 0 0 (by norm_num) (by norm_num)
    (by norm_num) (by norm_num)

theorem amin_le (m k : ℕ) (f : ℕ → ℝ) (hk : k < m) : amin m f ≤ f k := by
  unfold amin
  have hne : (Finset.range m).Nonempty := ⟨k, Finset.mem_range.mpr hk⟩
  rw [dif_pos hne]
  exact Finset.inf'_le f (Finset.mem_range.mpr hk)

theorem le_amax (m k : ℕ) (f : ℕ → ℝ) (hk : k < m) : f k ≤ amax m f := by
  unfold amax
  have hne : (Finset.range m).Nonempty := ⟨k, Finset.mem_range.mpr hk⟩
  rw [dif_pos hne]
  exact Finset.le_sup' f (Finset.mem_range.mpr hk)

theorem amin_mem (m : ℕ) (f : ℕ → ℝ) (hm : 0 < m) : ∃ k < m, amin m f = f k := by
  unfold amin
  have hne : (Finset.range m).Nonempty := Finset.nonempty_range_iff.mpr (by omega)
  rw [dif_pos hne]
  obtain ⟨k, hk, hke⟩ := Finset.exists_mem_eq_inf' hne f
  exact ⟨k, Finset.mem_range.mp hk, hke⟩

theorem amax_mem (m : ℕ) (f : ℕ → ℝ) (hm : 0 < m) : ∃ k < m, amax m f = f k := by
  unfold amax
  have hne : (Finset.range m).Nonempty := Finset.nonempty_range_iff.mpr (by omega)
  rw [dif_pos hne]
  obtain ⟨k, hk, hke⟩ := Finset.exists_mem_eq_sup' hne f
  exact ⟨k, Finset.mem_range.mp hk, hke⟩

/-- C5: the event predicates.  `zeros`, `zeros_CA` and `zeros_CC` attain
the minimum of the whole state, the CA slice and the CC slice;
`ones_CA_plus_CC` and `ones_Phi` attain max(CA+CC)-1 and max(Phi)-1;
`zeros_U` and `zeros_W` are the min of U and the max of W recomputed from
the Phi slice by the same formulas as the RHS evaluator; and a state with
one negative CA entry and all other entries positive has `zeros < 0`,
`zeros_CA < 0` and `zeros_CC ≥ 0`. -/
theorem C5_event_predicates (p : Params) (n : ℕ) (y : ℕ → ℝ) (hn : 0 < n) :
    (∀ k < 5 * n, zeros n y ≤ y k) ∧ (∃ k < 5 * n, zeros n y = y k) ∧
    (∀ k < n, zeros_CA n y ≤ y k) ∧ (∃ k < n, zeros_CA n y = y k) ∧
    (∀ k < n, zeros_CC n y ≤ y (n + k)) ∧ (∃ k < n, zeros_CC n y = y (n + k)) ∧
    (∀ k < n, y k + y (n + k) - 1 ≤ ones_CA_plus_CC n y) ∧
    (∃ k < n, ones_CA_plus_CC n y = y k + y (n + k) - 1) ∧
    (∀ k < n, y (4 * n + k) - 1 ≤ ones_Phi n y) ∧
    (∃ k < n, ones_Phi n y = y (4 * n + k) - 1) ∧
    zeros_U p n y = amin n (fun k => FunV.U p (fieldSlice n 4 y) k) ∧
    zeros_W p n y = amax n (fun k => FunV.W p (fieldSlice n 4 y) k) ∧
    ((∃ j < n, y j < 0 ∧ ∀ m < 5 * n, m ≠ j → 0 < y m) →
      zeros n y < 0 ∧ zeros_CA n y < 0 ∧ 0 ≤ zeros_CC n y) := by
  refine ⟨fun k hk => amin_le (5 * n) k y hk, amin_mem (5 * n) y (by omega),
    ?_, ?_, ?_, ?_, ?_, ?_, ?_, ?_, rfl, rfl, ?_⟩
  · intro k hk
    have h := amin_le n k (fieldSlice n 0 y) hk
    simpa [fieldSlice] using h
  · obtain ⟨k, hk, hke⟩ := amin_mem n (fieldSlice n 0 y) hn
    exact ⟨k, hk, by simpa [fieldSlice] using hke⟩
  · intro k hk
    have h := amin_le n k (fieldSlice n 1 y) hk
    simpa [fieldSlice] using h
  · obtain ⟨k, hk, hke⟩ := amin_mem n (fieldSlice n 1 y) hn
    exact ⟨k, hk, by simpa [fieldSlice] using hke⟩
  · intro k hk
    have h := le_amax n k (fun q => fieldSlice n 0 y q + fieldSlice n 1 y q) hk
    dsimp only at h
    have heq : fieldSlice n 0 y k + fieldSlice n 1 y k = y k + y (n + k) := by
      simp [fieldSlice]
    unfold ones_CA_plus_CC
    rw [← heq]
    linarith
  · obtain ⟨k, hk, hke⟩ :=
      amax_mem n (fun q => fieldSlice n 0 y q + fieldSlice n 1 y q) hn
    refine ⟨k, hk, ?_⟩
    unfold ones_CA_plus_CC
    rw [hke]
    simp [fieldSlice]
  · intro k hk
    have h := le_amax n k (fieldSlice n 4 y) hk
    unfold ones_Phi
    have heq : fieldSlice n 4 y k = y (4 * n + k) := rfl
    rw [← heq]
    linarith
  · obtain ⟨k, hk, hke⟩ := amax_mem n (fieldSlice n 4 y) hn
    refine ⟨k, hk, ?_⟩
    unfold ones_Phi
    rw [hke]
    rfl
  · rintro ⟨j, hj, hneg, hpos⟩
    refine ⟨lt_of_le_of_lt (amin_le (5 * n) j y (by omega)) hneg, ?_, ?_⟩
    · have h := amin_le n j (fieldSlice n 0 y) hj
      have heq : fieldSlice n 0 y j = y j := by simp [fieldSlice]
      calc zeros_CA n y ≤ fieldSlice n 0 y j := h
        _ < 0 := by rw [heq]; exact hneg
    · obtain ⟨k, hk, hke⟩ := amin_mem n (fieldSlice n 1 y) hn
      have hpk : (0 : ℝ) < fieldSlice n 1 y k := by
        have hidx : 1 * n + k ≠ j := by omega
        have hlt : 1 * n + k < 5 * n := by omega
        exact hpos (1 * n + k) hlt hidx
      have : zeros_CC n y = fieldSlice n 1 y k := hke
      rw [this]
      exact hpk.le

theorem C5_witness :
    (∀ k < 5 * 1, zeros 1 yneg ≤ yneg k) ∧ (∃ k < 5 * 1, zeros 1 yneg = yneg k) ∧
    (∀ k < 1, zeros_CA 1 yneg ≤ yneg k) ∧ (∃ k < 1, zeros_CA 1 yneg = yneg k) ∧
    (∀ k < 1, zeros_CC 1 yneg ≤ yneg (1 + k)) ∧
    (∃ k < 1, zeros_CC 1 yneg = yneg (1 + k)) ∧
    (∀ k < 1, yneg k + yneg (1 + k) - 1 ≤ ones_CA_plus_CC 1 yneg) ∧
    (∃ k < 1, ones_CA_plus_CC 1 yneg = yneg k + yneg (1 + k) - 1) ∧
    (∀ k < 1, yneg (4 * 1 + k) - 1 ≤ ones_Phi 1 yneg) ∧
    (∃ k < 1, ones_Phi 1 yneg = yneg (4 * 1 + k) - 1) ∧
    zeros_U Psample 1 yneg = amin 1 (fun k => FunV.U Psample (fieldSlice 1 4 yneg) k) ∧
    zeros_W Psample 1 yneg = amax 1 (fun k => FunV.W Psample (fieldSlice 1 4 yneg) k) ∧
    ((∃ j < 1, yneg j < 0 ∧ ∀ m < 5 * 1, m ≠ j → 0 < yneg m) →
      zeros 1 yneg < 0 ∧ zeros_CA 1 yneg < 0 ∧ 0 ≤ zeros_CC 1 yneg) :=
  C5_event_predicates Psample 1 yneg (by norm_num)

theorem sinh_le_mul_cosh (x : ℝ) (hx : 0 ≤ x) : Real.sinh x ≤ x * Real.cosh x := by
  have hmono : MonotoneOn (fun t : ℝ => t * Real.cosh t - Real.sinh t) (Set.Ici 0) := by
    apply monotoneOn_of_deriv_nonneg (convex_Ici 0)
    · exact ((continuous_id.mul Real.continuous_cosh).sub Real.continuous_sinh).continuousOn
    · intro t _
      exact ((differentiable_id.mul Real.differentiable_cosh).sub
        Real.differentiable_sinh t).differentiableWithinAt
    · intro t ht
      rw [interior_Ici, Set.mem_Ioi] at ht
      have hd : HasDerivAt (fun t : ℝ => t * Real.cosh t - Real.sinh t)
          (1 * Real.cosh t + t * Real.sinh t - Real.cosh t) t :=
        ((hasDerivAt_id t).mul (Real.hasDerivAt_cosh t)).sub (Real.hasDerivAt_sinh t)
      rw [hd.deriv]
      have hs : 0 ≤ Real.sinh t := Real.sinh_nonneg_iff.mpr ht.le
      nlinarith
  have h := hmono (Set.left_mem_Ici) (Set.mem_Ici.mpr hx) hx
  simpa using h

theorem coth_sub_inv_bounds_pos (x : ℝ) (hx : 0 < x) :
    0 ≤ Real.cosh x / Real.sinh x - 1 / x ∧
      Real.cosh x / Real.sinh x - 1 / x ≤ 1 := by
  have hs : 0 < Real.sinh x := Real.sinh_pos_iff.mpr hx
  constructor
  · rw [sub_nonneg, div_le_div_iff₀ hx hs]
    have := sinh_le_mul_cosh x hx.le
    nlinarith
  · rw [sub_le_iff_le_add, div_le_iff₀ hs]
    have hexp : Real.exp (-x) ≤ 1 := Real.exp_le_one_iff.mpr (by linarith)
    have hxs : x ≤ Real.sinh x := Real.self_le_sinh_iff.mpr hx.le
    have hcs : Real.cosh x - Real.sinh x = Real.exp (-x) := Real.cosh_sub_sinh x
    have hinv : 1 / x * Real.sinh x = Real.sinh x / x := by ring
    have hdiv : Real.exp (-x) ≤ Real.sinh x / x := by
      rw [le_div_iff₀ hx]
      nlinarith
    nlinarith [hdiv, mul_pos hx hs]

theorem coth_sub_inv_bounds (x : ℝ) (hx : x ≠ 0) :
    -1 ≤ Real.cosh x / Real.sinh x - 1 / x ∧
      Real.cosh x / Real.sinh x - 1 / x ≤ 1 := by
  rcases hx.lt_or_lt with hneg | hpos
  · have h := coth_sub_inv_bounds_pos (-x) (by linarith)
    rw [Real.cosh_neg, Real.sinh_neg] at h
    have heq : Real.cosh x / -Real.sinh x - 1 / -x =
        -(Real.cosh x / Real.sinh x - 1 / x) := by
      rw [div_neg, div_neg]
      ring
    rw [heq] at h
    constructor <;> linarith [h.1, h.2]
  · have h := coth_sub_inv_bounds_pos x hpos
    constructor <;> linarith [h.1, h.2]

/-- C7: the Fiadeiro-Veronis weight is bounded, `-1 ≤ sigma ≤ 1`, for
every finite non-zero Peclet number, and for `|Pe|` below the lower guard
the branch taken is the guard branch returning exactly 0, never the
closed-form coth branch. -/
theorem C7_sigma_bounded (Pe W : ℝ) (hPe : Pe ≠ 0) :
    (-1 ≤ calculate_sigma Pe W Peclet_min Peclet_max ∧
      calculate_sigma Pe W Peclet_min Peclet_max ≤ 1) ∧
    (|Pe| < Peclet_min → calculate_sigma Pe W Peclet_min Peclet_max = 0) := by
  unfold calculate_sigma
  split_ifs with h1 h2
  · exact ⟨by norm_num, fun _ => rfl⟩
  · refine ⟨?_, fun hcon => absurd hcon h1⟩
    rcases Real.sign_apply_eq W with h | h | h <;> rw [h] <;> norm_num
  · exact ⟨coth_sub_inv_bounds Pe hPe, fun hcon => absurd hcon h1⟩

theorem C7_witness :
    (-1 ≤ calculate_sigma 1 0 Peclet_min Peclet_max ∧
      calculate_sigma 1 0 Peclet_min Peclet_max ≤ 1) ∧
    (|(1 : ℝ)| < Peclet_min → calculate_sigma 1 0 Peclet_min Peclet_max = 0) :=
  C7_sigma_bounded 1 0 (by norm_num)

theorem Peclet_cCa_flat (p : Params) (Phi : ℕ → ℝ) (k : ℕ) :
    FunV.Peclet_cCa p Phi k =
      FunV.W p Phi k * p.delta_x * FunV.denominator Phi k / (2 * p.dCa) := by
  unfold FunV.Peclet_cCa FunV.common_Peclet
  ring

theorem Peclet_cCO3_flat (p : Params) (Phi : ℕ → ℝ) (k : ℕ) :
    FunV.Peclet_cCO3 p Phi k =
      FunV.W p Phi k * p.delta_x * FunV.denominator Phi k / (2 * p.dCO3) := by
  unfold FunV.Peclet_cCO3 FunV.common_Peclet
  ring

theorem Peclet_Phi_flat (p : Params) (Phi : ℕ → ℝ) (k : ℕ) :
    FunV.Peclet_Phi p Phi k =
      FunV.W p Phi k * p.delta_x / (2 * FunV.dPhi p Phi k) := by
  unfold FunV.Peclet_Phi FunV.common_Peclet
  ring

theorem sigma_cCa_flat (p : Params) (Phi : ℕ → ℝ) (k : ℕ) :
    FunV.sigma_cCa p Phi k =
      (if |FunV.W p Phi k * p.delta_x * FunV.denominator Phi k / (2 * p.dCa)| <
          Peclet_min then 0
       else if |FunV.W p Phi k * p.delta_x * FunV.denominator Phi k / (2 * p.dCa)| >
          Peclet_max then Real.sign (FunV.W p Phi k)
       else Real.cosh (FunV.W p Phi k * p.delta_x * FunV.denominator Phi k /
            (2 * p.dCa)) / Real.sinh (FunV.W p Phi k * p.delta_x *
            FunV.denominator Phi k / (2 * p.dCa)) -
          1 / (FunV.W p Phi k * p.delta_x * FunV.denominator Phi k / (2 * p.dCa))) := by
  unfold FunV.sigma_cCa calculate_sigma
  rw [Peclet_cCa_flat]

theorem sigma_cCO3_flat (p : Params) (Phi : ℕ → ℝ) (k : ℕ) :
    FunV.sigma_cCO3 p Phi k =
      (if |FunV.W p Phi k * p.delta_x * FunV.denominator Phi k / (2 * p.dCO3)| <
          Peclet_min then 0
       else if |FunV.W p Phi k * p.delta_x * FunV.denominator Phi k / (2 * p.dCO3)| >
          Peclet_max then Real.sign (FunV.W p Phi k)
       else Real.cosh (FunV.W p Phi k * p.delta_x * FunV.denominator Phi k /
            (2 * p.dCO3)) / Real.sinh (FunV.W p Phi k * p.delta_x *
            FunV.denominator Phi k / (2 * p.dCO3)) -
          1 / (FunV.W p Phi k * p.delta_x * FunV.denominator Phi k / (2 * p.dCO3))) := by
  unfold FunV.sigma_cCO3 calculate_sigma
  rw [Peclet_cCO3_flat]

theorem sigma_Phi_flat (p : Params) (Phi : ℕ → ℝ) (k : ℕ) :
    FunV.sigma_Phi p Phi k =
      (if |FunV.W p Phi k * p.delta_x / (2 * FunV.dPhi p Phi k)| < Peclet_min then 0
       else if |FunV.W p Phi k * p.delta_x / (2 * FunV.dPhi p Phi k)| > Peclet_max then
         Real.sign (FunV.W p Phi k)
       else Real.cosh (FunV.W p Phi k * p.delta_x / (2 * FunV.dPhi p Phi k)) /
            Real.sinh (FunV.W p Phi k * p.delta_x / (2 * FunV.dPhi p Phi k)) -
          1 / (FunV.W p Phi k * p.delta_x / (2 * FunV.dPhi p Phi k))) := by
  unfold FunV.sigma_Phi calculate_sigma
  rw [Peclet_Phi_flat]

theorem funRHS_eq_fun_numba (p : Params) (n : ℕ)
    (bcCA bcCC bccCa bccCO3 bcPhi : BC × BC) (y : ℕ → ℝ) (m : ℕ) :
    funRHS p n bcCA bcCC bccCa bccCO3 bcPhi y m =
      fun_numba p n bcCA bcCC bccCa bccCO3 bcPhi y m := by
  unfold funRHS fun_numba pde_rhs
  dsimp only
  by_cases h1 : m < n
  · rw [if_pos h1, if_pos h1]
    simp only [FunV.dCA_dt, FunV.U, FunV.F, FunV.coA, FunV.coC, FunV.two_factors,
      FunV.two_factors_upp_lim, FunV.two_factors_low_lim, FunV.three_factors,
      FunV.three_factors_upp_lim, FunV.three_factors_low_lim, pde_rhs_cell]
    norm_num
  · rw [if_neg h1, if_neg h1]
    by_cases h2 : m < 2 * n
    · rw [if_pos h2, if_pos h2]
      simp only [FunV.dCC_dt, FunV.U, FunV.F, FunV.coA, FunV.coC, FunV.two_factors,
        FunV.two_factors_upp_lim, FunV.two_factors_low_lim, FunV.three_factors,
        FunV.three_factors_upp_lim, FunV.three_factors_low_lim, pde_rhs_cell]
      norm_num
    · rw [if_neg h2, if_neg h2]
      by_cases h3 : m < 3 * n
      · rw [if_pos h3, if_pos h3]
        simp only [FunV.dcCa_dt, FunV.cCa_grad, FunV.Phi_grad, FunV.grad_Phi_denom,
          FunV.Phi_denom, FunV.common_helper, FunV.coA, FunV.coC, FunV.two_factors,
          FunV.two_factors_upp_lim, FunV.two_factors_low_lim, FunV.three_factors,
          FunV.three_factors_upp_lim, FunV.three_factors_low_lim,
          sigma_cCa_flat, sigma_Phi_flat, FunV.dPhi, FunV.W, FunV.denominator,
          FunV.F, pde_rhs_cell]
        norm_num
        ring
      · rw [if_neg h3, if_neg h3]
        by_cases h4 : m < 4 * n
        · rw [if_pos h4, if_pos h4]
          simp only [FunV.dcCO3_dt, FunV.cCO3_grad, FunV.Phi_grad,
            FunV.grad_Phi_denom, FunV.Phi_denom, FunV.common_helper, FunV.coA,
            FunV.coC, FunV.two_factors, FunV.two_factors_upp_lim,
            FunV.two_factors_low_lim, FunV.three_factors,
            FunV.three_factors_upp_lim, FunV.three_factors_low_lim,
            sigma_cCO3_flat, sigma_Phi_flat, FunV.dPhi, FunV.W, FunV.denominator,
            FunV.F, pde_rhs_cell]
          norm_num
          ring
        · rw [if_neg h4, if_neg h4]
          by_cases h5 : m < 5 * n
          · rw [if_pos h5, if_pos h5]
            simp only [FunV.dPhi_dt, FunV.dW_dx, FunV.Phi_grad, FunV.common_helper,
              FunV.coA, FunV.coC, FunV.two_factors, FunV.two_factors_upp_lim,
              FunV.two_factors_low_lim, FunV.three_factors,
              FunV.three_factors_upp_lim, FunV.three_factors_low_lim,
              sigma_Phi_flat, FunV.dPhi, FunV.W, FunV.denominator, FunV.F,
              pde_rhs_cell]
            norm_num
            ring
          · rw [if_neg h5, if_neg h5]

/-- C4: on every cell of every state, the plain array-expression
evaluator `fun` and the fused per-cell variant `fun_numba` (which
delegates to `pde_rhs`) return equal derivative vectors in exact
arithmetic. -/
theorem C4_fun_matches_fun_numba (p : Params) (n : ℕ)
    (bcCA bcCC bccCa bccCO3 bcPhi : BC × BC) (y : ℕ → ℝ) (m : ℕ) :
    funRHS p n bcCA bcCC bccCa bccCO3 bcPhi y m =
      fun_numba p n bcCA bcCC bccCa bccCO3 bcPhi y m :=
  funRHS_eq_fun_numba p n bcCA bcCC bccCa bccCO3 bcPhi y m

/-- C1: for every state vector, the first two length-n blocks returned by
the RHS evaluator (both `fun` and the fused kernel via `fun_numba`) equal
`dCA/dt = -U*grad_back(CA) - Da*((1-CA)*coA + lambda*CA*coC)` and
`dCC/dt = -U*grad_back(CC) + Da*(lambda*(1-CC)*coC + CC*coA)` cell-wise,
with `U = presum + rhorat*Phi^3*F/(1-Phi)`, `F = 1 - exp(10 - 10/Phi)`,
`coA = CA*((1 - min(KRat*cCa*cCO3,1))^m2 * ntd*nts -
nu1*(max(KRat*cCa*cCO3,1)-1)^m1)` and
`coC = CC*((max(cCa*cCO3,1)-1)^n1 - nu2*(1 - min(cCa*cCO3,1))^n2)`. -/
theorem C1_dCA_dCC_formulas (p : Params) (n : ℕ)
    (bcCA bcCC bccCa bccCO3 bcPhi : BC × BC) (y : ℕ → ℝ) (i : ℕ) (hi : i < n) :
    funRHS p n bcCA bcCC bccCa bccCO3 bcPhi y i =
      -(p.presum + p.rhorat * fieldSlice n 4 y i ^ 3 *
          (1 - Real.exp (10 - 10 / fieldSlice n 4 y i)) / (1 - fieldSlice n 4 y i)) *
        gradBack n p.delta_x (fieldSlice n 0 y) bcCA i -
      p.Da * ((1 - fieldSlice n 0 y i) * (fieldSlice n 0 y i *
          ((1 - min (p.KRat * (fieldSlice n 2 y i * fieldSlice n 3 y i)) 1) ^ p.m2 *
              (p.not_too_deep i * p.not_too_shallow i) -
            p.nu1 * (max (p.KRat * (fieldSlice n 2 y i * fieldSlice n 3 y i)) 1 - 1) ^ p.m1)) +
        p.lambda_ * fieldSlice n 0 y i * (fieldSlice n 1 y i *
          ((max (fieldSlice n 2 y i * fieldSlice n 3 y i) 1 - 1) ^ p.n1 -
            p.nu2 * (1 - min (fieldSlice n 2 y i * fieldSlice n 3 y i) 1) ^ p.n2))) ∧
    funRHS p n bcCA bcCC bccCa bccCO3 bcPhi y (n + i) =
      -(p.presum + p.rhorat * fieldSlice n 4 y i ^ 3 *
          (1 - Real.exp (10 - 10 / fieldSlice n 4 y i)) / (1 - fieldSlice n 4 y i)) *
        gradBack n p.delta_x (fieldSlice n 1 y) bcCC i +
      p.Da * (p.lambda_ * (1 - fieldSlice n 1 y i) * (fieldSlice n 1 y i *
          ((max (fieldSlice n 2 y i * fieldSlice n 3 y i) 1 - 1) ^ p.n1 -
            p.nu2 * (1 - min (fieldSlice n 2 y i * fieldSlice n 3 y i) 1) ^ p.n2)) +
        fieldSlice n 1 y i * (fieldSlice n 0 y i *
          ((1 - min (p.KRat * (fieldSlice n 2 y i * fieldSlice n 3 y i)) 1) ^ p.m2 *
              (p.not_too_deep i * p.not_too_shallow i) -
            p.nu1 * (max (p.KRat * (fieldSlice n 2 y i * fieldSlice n 3 y i)) 1 - 1) ^ p.m1))) ∧
    fun_numba p n bcCA bcCC bccCa bccCO3 bcPhi y i =
      -(p.presum + p.rhorat * fieldSlice n 4 y i ^ 3 *
          (1 - Real.exp (10 - 10 / fieldSlice n 4 y i)) / (1 - fieldSlice n 4 y i)) *
        gradBack n p.delta_x (fieldSlice n 0 y) bcCA i -
      p.Da * ((1 - fieldSlice n 0 y i) * (fieldSlice n 0 y i *
          ((1 - min (p.KRat * (fieldSlice n 2 y i * fieldSlice n 3 y i)) 1) ^ p.m2 *
              (p.not_too_deep i * p.not_too_shallow i) -
            p.nu1 * (max (p.KRat * (fieldSlice n 2 y i * fieldSlice n 3 y i)) 1 - 1) ^ p.m1)) +
        p.lambda_ * fieldSlice n 0 y i * (fieldSlice n 1 y i *
          ((max (fieldSlice n 2 y i * fieldSlice n 3 y i) 1 - 1) ^ p.n1 -
            p.nu2 * (1 - min (fieldSlice n 2 y i * fieldSlice n 3 y i) 1) ^ p.n2))) ∧
    fun_numba p n bcCA bcCC bccCa bccCO3 bcPhi y (n + i) =
      -(p.presum + p.rhorat * fieldSlice n 4 y i ^ 3 *
          (1 - Real.exp (10 - 10 / fieldSlice n 4 y i)) / (1 - fieldSlice n 4 y i)) *
        gradBack n p.delta_x (fieldSlice n 1 y) bcCC i +
      p.Da * (p.lambda_ * (1 - fieldSlice n 1 y i) * (fieldSlice n 1 y i *
          ((max (fieldSlice n 2 y i * fieldSlice n 3 y i) 1 - 1) ^ p.n1 -
            p.nu2 * (1 - min (fieldSlice n 2 y i * fieldSlice n 3 y i) 1) ^ p.n2)) +
        fieldSlice n 1 y i * (fieldSlice n 0 y i *
          ((1 - min (p.KRat * (fieldSlice n 2 y i * fieldSlice n 3 y i)) 1) ^ p.m2 *
              (p.not_too_deep i * p.not_too_shallow i) -
            p.nu1 * (max (p.KRat * (fieldSlice n 2 y i * fieldSlice n 3 y i)) 1 - 1) ^ p.m1))) := by
  have hn1 : ¬ n + i < n := by omega
  have hn2 : n + i < 2 * n := by omega
  have hn3 : n + i - n = i := by omega
  have hCA : funRHS p n bcCA bcCC bccCa bccCO3 bcPhi y i =
      -(p.presum + p.rhorat * fieldSlice n 4 y i ^ 3 *
          (1 - Real.exp (10 - 10 / fieldSlice n 4 y i)) / (1 - fieldSlice n 4 y i)) *
        gradBack n p.delta_x (fieldSlice n 0 y) bcCA i -
      p.Da * ((1 - fieldSlice n 0 y i) * (fieldSlice n 0 y i *
          ((1 - min (p.KRat * (fieldSlice n 2 y i * fieldSlice n 3 y i)) 1) ^ p.m2 *
              (p.not_too_deep i * p.not_too_shallow i) -
            p.nu1 * (max (p.KRat * (fieldSlice n 2 y i * fieldSlice n 3 y i)) 1 - 1) ^ p.m1)) +
        p.lambda_ * fieldSlice n 0 y i * (fieldSlice n 1 y i *
          ((max (fieldSlice n 2 y i * fieldSlice n 3 y i) 1 - 1) ^ p.n1 -
            p.nu2 * (1 - min (fieldSlice n 2 y i * fieldSlice n 3 y i) 1) ^ p.n2))) := by
    simp only [funRHS, if_pos hi, FunV.dCA_dt, FunV.U, FunV.F, FunV.coA, FunV.coC,
      FunV.two_factors, FunV.two_factors_upp_lim, FunV.two_factors_low_lim,
      FunV.three_factors, FunV.three_factors_upp_lim, FunV.three_factors_low_lim]
    rw [mul_comm (fieldSlice n 2 y i * fieldSlice n 3 y i) p.KRat]
  have hCC : funRHS p n bcCA bcCC bccCa bccCO3 bcPhi y (n + i) =
      -(p.presum + p.rhorat * fieldSlice n 4 y i ^ 3 *
          (1 - Real.exp (10 - 10 / fieldSlice n 4 y i)) / (1 - fieldSlice n 4 y i)) *
        gradBack n p.delta_x (fieldSlice n 1 y) bcCC i +
      p.Da * (p.lambda_ * (1 - fieldSlice n 1 y i) * (fieldSlice n 1 y i *
          ((max (fieldSlice n 2 y i * fieldSlice n 3 y i) 1 - 1) ^ p.n1 -
            p.nu2 * (1 - min (fieldSlice n 2 y i * fieldSlice n 3 y i) 1) ^ p.n2)) +
        fieldSlice n 1 y i * (fieldSlice n 0 y i *
          ((1 - min (p.KRat * (fieldSlice n 2 y i * fieldSlice n 3 y i)) 1) ^ p.m2 *
              (p.not_too_deep i * p.not_too_shallow i) -
            p.nu1 * (max (p.KRat * (fieldSlice n 2 y i * fieldSlice n 3 y i)) 1 - 1) ^ p.m1))) := by
    simp only [funRHS, if_neg hn1, if_pos hn2, hn3, FunV.dCC_dt, FunV.U, FunV.F,
      FunV.coA, FunV.coC, FunV.two_factors, FunV.two_factors_upp_lim,
      FunV.two_factors_low_lim, FunV.three_factors, FunV.three_factors_upp_lim,
      FunV.three_factors_low_lim]
    rw [mul_comm (fieldSlice n 2 y i * fieldSlice n 3 y i) p.KRat]
  exact ⟨hCA, hCC,
    (funRHS_eq_fun_numba p n bcCA bcCC bccCa bccCO3 bcPhi y i).symm.trans hCA,
    (funRHS_eq_fun_numba p n bcCA bcCC bccCa bccCO3 bcPhi y (n + i)).symm.trans hCC⟩

theorem C1_witness :
    funRHS Psample 1 bcSample bcSample bcSample bcSample bcSample ysample 0 =
      -(Psample.presum + Psample.rhorat * fieldSlice 1 4 ysample 0 ^ 3 *
          (1 - Real.exp (10 - 10 / fieldSlice 1 4 ysample 0)) / (1 - fieldSlice 1 4 ysample 0)) *
        gradBack 1 Psample.delta_x (fieldSlice 1 0 ysample) bcSample 0 -
      Psample.Da * ((1 - fieldSlice 1 0 ysample 0) * (fieldSlice 1 0 ysample 0 *
          ((1 - min (Psample.KRat * (fieldSlice 1 2 ysample 0 * fieldSlice 1 3 ysample 0)) 1) ^ Psample.m2 *
              (Psample.not_too_deep 0 * Psample.not_too_shallow 0) -
            Psample.nu1 * (max (Psample.KRat * (fieldSlice 1 2 ysample 0 * fieldSlice 1 3 ysample 0)) 1 - 1) ^ Psample.m1)) +
        Psample.lambda_ * fieldSlice 1 0 ysample 0 * (fieldSlice 1 1 ysample 0 *
          ((max (fieldSlice 1 2 ysample 0 * fieldSlice 1 3 ysample 0) 1 - 1) ^ Psample.n1 -
            Psample.nu2 * (1 - min (fieldSlice 1 2 ysample 0 * fieldSlice 1 3 ysample 0) 1) ^ Psample.n2))) ∧
    funRHS Psample 1 bcSample bcSample bcSample bcSample bcSample ysample (1 + 0) =
      -(Psample.presum + Psample.rhorat * fieldSlice 1 4 ysample 0 ^ 3 *
          (1 - Real.exp (10 - 10 / fieldSlice 1 4 ysample 0)) / (1 - fieldSlice 1 4 ysample 0)) *
        gradBack 1 Psample.delta_x (fieldSlice 1 1 ysample) bcSample 0 +
      Psample.Da * (Psample.lambda_ * (1 - fieldSlice 1 1 ysample 0) * (fieldSlice 1 1 ysample 0 *
          ((max (fieldSlice 1 2 ysample 0 * fieldSlice 1 3 ysample 0) 1 - 1) ^ Psample.n1 -
            Psample.nu2 * (1 - min (fieldSlice 1 2 ysample 0 * fieldSlice 1 3 ysample 0) 1) ^ Psample.n2)) +
        fieldSlice 1 1 ysample 0 * (fieldSlice 1 0 ysample 0 *
          ((1 - min (Psample.KRat * (fieldSlice 1 2 ysample 0 * fieldSlice 1 3 ysample 0)) 1) ^ Psample.m2 *
              (Psample.not_too_deep 0 * Psample.not_too_shallow 0) -
            Psample.nu1 * (max (Psample.KRat * (fieldSlice 1 2 ysample 0 * fieldSlice 1 3 ysample 0)) 1 - 1) ^ Psample.m1))) ∧
    fun_numba Psample 1 bcSample bcSample bcSample bcSample bcSample ysample 0 =
      -(Psample.presum + Psample.rhorat * fieldSlice 1 4 ysample 0 ^ 3 *
          (1 - Real.exp (10 - 10 / fieldSlice 1 4 ysample 0)) / (1 - fieldSlice 1 4 ysample 0)) *
        gradBack 1 Psample.delta_x (fieldSlice 1 0 ysample) bcSample 0 -
      Psample.Da * ((1 - fieldSlice 1 0 ysample 0) * (fieldSlice 1 0 ysample 0 *
          ((1 - min (Psample.KRat * (fieldSlice 1 2 ysample 0 * fieldSlice 1 3 ysample 0)) 1) ^ Psample.m2 *
              (Psample.not_too_deep 0 * Psample.not_too_shallow 0) -
            Psample.nu1 * (max (Psample.KRat * (fieldSlice 1 2 ysample 0 * fieldSlice 1 3 ysample 0)) 1 - 1) ^ Psample.m1)) +
        Psample.lambda_ * fieldSlice 1 0 ysample 0 * (fieldSlice 1 1 ysample 0 *
          ((max (fieldSlice 1 2 ysample 0 * fieldSlice 1 3 ysample 0) 1 - 1) ^ Psample.n1 -
            Psample.nu2 * (1 - min (fieldSlice 1 2 ysample 0 * fieldSlice 1 3 ysample 0) 1) ^ Psample.n2))) ∧
    fun_numba Psample 1 bcSample bcSample bcSample bcSample bcSample ysample (1 + 0) =
      -(Psample.presum + Psample.rhorat * fieldSlice 1 4 ysample 0 ^ 3 *
          (1 - Real.exp (10 - 10 / fieldSlice 1 4 ysample 0)) / (1 - fieldSlice 1 4 ysample 0)) *
        gradBack 1 Psample.delta_x (fieldSlice 1 1 ysample) bcSample 0 +
      Psample.Da * (Psample.lambda_ * (1 - fieldSlice 1 1 ysample 0) * (fieldSlice 1 1 ysample 0 *
          ((max (fieldSlice 1 2 ysample 0 * fieldSlice 1 3 ysample 0) 1 - 1) ^ Psample.n1 -
            Psample.nu2 * (1 - min (fieldSlice 1 2 ysample 0 * fieldSlice 1 3 ysample 0) 1) ^ Psample.n2)) +
        fieldSlice 1 1 ysample 0 * (fieldSlice 1 0 ysample 0 *
          ((1 - min (Psample.KRat * (fieldSlice 1 2 ysample 0 * fieldSlice 1 3 ysample 0)) 1) ^ Psample.m2 *
              (Psample.not_too_deep 0 * Psample.not_too_shallow 0) -
            Psample.nu1 * (max (Psample.KRat * (fieldSlice 1 2 ysample 0 * fieldSlice 1 3 ysample 0)) 1 - 1) ^ Psample.m1))) :=
  C1_dCA_dCC_formulas Psample 1 bcSample bcSample bcSample bcSample bcSample
    ysample 0 (by norm_num)

theorem C2_witness :
    Peclet_min = 1 / 100 ∧ Peclet_max = 100 ∧
    (|(1 : ℝ)| < Peclet_min → calculate_sigma 1 0 Peclet_min Peclet_max = 0) ∧
    (|(1 : ℝ)| > Peclet_max → calculate_sigma 1 0 Peclet_min Peclet_max = Real.sign 0) ∧
    (Peclet_min ≤ |(1 : ℝ)| → |(1 : ℝ)| ≤ Peclet_max →
      calculate_sigma 1 0 Peclet_min Peclet_max =
        Real.cosh 1 / Real.sinh 1 - 1 / 1) ∧
    (∀ (p : Params) (n : ℕ) (bc : BC × BC) (cCa Phi : ℕ → ℝ) (k : ℕ),
      FunV.cCa_grad p n bc cCa Phi k =
        0.5 * ((1 - calculate_sigma (FunV.Peclet_cCa p Phi k) (FunV.W p Phi k)
            Peclet_min Peclet_max) * gradForw n p.delta_x cCa bc k +
          (1 + calculate_sigma (FunV.Peclet_cCa p Phi k) (FunV.W p Phi k)
            Peclet_min Peclet_max) * gradBack n p.delta_x cCa bc k)) :=
  C2_sigma_branches 1 0

theorem C10_witness :
    (1 - FunV.two_factors_upp_lim ysample ysample 0) *
      (FunV.two_factors_low_lim ysample ysample 0 - 1) = 0 ∧
    (1 - FunV.three_factors_upp_lim Psample ysample ysample 0) *
      (FunV.three_factors_low_lim Psample ysample ysample 0 - 1) = 0 ∧
    (Psample.m1 ≠ 0 → Psample.m2 ≠ 0 →
      (1 - FunV.three_factors_upp_lim Psample ysample ysample 0) ^ Psample.m2 *
          (Psample.not_too_deep 0 * Psample.not_too_shallow 0) = 0 ∨
        Psample.nu1 *
          (FunV.three_factors_low_lim Psample ysample ysample 0 - 1) ^ Psample.m1 = 0) ∧
    (Psample.n1 ≠ 0 → Psample.n2 ≠ 0 →
      (FunV.two_factors_low_lim ysample ysample 0 - 1) ^ Psample.n1 = 0 ∨
        Psample.nu2 * (1 - FunV.two_factors_upp_lim ysample ysample 0) ^ Psample.n2 = 0) :=
  C10_clamp_mutual_exclusion Psample ysample ysample 0
